import Mathlib

/-!
A verification development for the site crawler in `scraper.py`.

The crawl engine (`SiteCrawler.crawl`) is shallowly embedded as a fuel-indexed
transition function over an explicit `CrawlState`.  External collaborators
(the HTTP transport `requests.Session.get`, the HTML parser/extractor built on
BeautifulSoup, the relative-reference resolver `urllib.parse.urljoin`, and the
SQLite result sink) are modelled as an oracle environment `Env`: per-URL fetch
outcomes, extraction results, and sink-failure behaviour are arbitrary
parameters, while all engine logic (scope policy, dedup, budget, enqueueing,
record/edge emission, exception propagation) is translated from the source.

URLs are represented in parsed form (`urllib.parse.urlparse` components);
string-level equality of URLs corresponds to equality of the parsed structure.
-/

namespace Scraper

/-- A URL in parsed form, as produced by `urllib.parse.urlparse`.
`path` stands for the combined path+params+query part, which the engine never
inspects (it only ever reads `scheme` and `netloc`, strips fragments, and
compares whole URLs for equality). -/
structure Url where
  scheme : String
  netloc : String
  path : String
  fragment : String
deriving DecidableEq, Repr

/-- `urllib.parse.urldefrag(url).url` — the URL with its fragment removed
(line 163 and line 189 of `scraper.py`). -/
def defrag (u : Url) : Url := { u with fragment := "" }

/-- The state of a `urllib.robotparser.RobotFileParser` instance, as far as
`can_fetch` consults it.  `lastChecked` records whether `parse` (which calls
`modified()`) has ever run; `disallowAll` / `allowAll` are the flags set by
`read()` on HTTP errors (never set on the code path used by `scraper.py`);
`rules` abstracts the parsed rule entries (the parsing algorithm itself is an
external collaborator — only the query contract is modelled). -/
structure RobotFileParser where
  lastChecked : Bool
  disallowAll : Bool
  allowAll : Bool
  rules : String → Url → Bool

/-- A freshly constructed `RobotFileParser()`: nothing read or parsed yet. -/
def RobotFileParser.new : RobotFileParser :=
  { lastChecked := false, disallowAll := false, allowAll := false,
    rules := fun _ _ => false }

/-- `RobotFileParser.can_fetch(useragent, url)` from CPython's
`urllib/robotparser.py`: deny if `disallow_all`; allow if `allow_all`;
deny if the robots data was never read/parsed (`last_checked` unset);
otherwise consult the parsed rule entries. -/
def RobotFileParser.can_fetch (rp : RobotFileParser) (agent : String) (u : Url) : Bool :=
  if rp.disallowAll then false
  else if rp.allowAll then true
  else if !rp.lastChecked then false
  else rp.rules agent u

/-- The outcome of the one-time GET of `/robots.txt` in `SiteCrawler.__init__`
(lines 132-136): `ok` is `response.ok`, and `rules` abstracts the result of
`RobotFileParser.parse(response.text.splitlines())`. -/
structure RobotsResponse where
  ok : Bool
  rules : String → Url → Bool

/-- The robots setup of `SiteCrawler.__init__` (lines 129-136): when
`respect_robots` is off, `self.robot_parser` stays `None`; when on, a fresh
parser is created, and it is `parse`d only if the GET of `robots.txt` neither
raised (`resp = none`, the `RequestException` being suppressed) nor returned a
non-OK response. -/
def setupRobots (respectRobots : Bool) (resp : Option RobotsResponse) :
    Option RobotFileParser :=
  if respectRobots then
    some (match resp with
      | none => RobotFileParser.new
      | some r =>
        if r.ok then
          { RobotFileParser.new with lastChecked := true, rules := r.rules }
        else RobotFileParser.new)
  else none

/-- The per-run configuration of a `SiteCrawler` (its `__init__` fields).
`base` is the parse of `base_url.rstrip("/")`; `delay` (the politeness pause
passed to `time.sleep`) has no observable effect in this model; the request
timeout is absorbed into the fetch oracle. -/
structure Config where
  base : Url
  maxPages : Nat
  delay : Nat
  includeSubdomains : Bool
  robotParser : Option RobotFileParser
  userAgent : String

/-- A successful `requests` response together with the extraction results the
engine would read off it: `statusCode` is `response.status_code`,
`contentTypeHeader` the raw `Content-Type` header, and `title`/`text`/`hrefs`
abstract what BeautifulSoup yields on `response.text` (`title` is the already
stripped-or-None title, `text` the `_extract_text` result, `hrefs` the raw
`href` attribute values of the anchors, in document order). -/
structure Response where
  statusCode : Int
  contentTypeHeader : String
  title : Option String
  text : String
  hrefs : List String
deriving DecidableEq, Repr

/-- The oracle environment for one run: the HTTP transport (`fetch u = none`
models a `requests.RequestException` — timeout, connection error, DNS failure),
the external resolver `urllib.parse.urljoin`, and whether a given Result Sink
call (`Database.upsert_page` / `Database.insert_links`, keyed by the page URL)
raises a storage error. -/
structure Env where
  fetch : Url → Option Response
  urljoin : Url → String → Url
  upsertFail : Url → Bool
  insertFail : Url → Bool

/-- A row of the `pages` table as `upsert_page` receives it (lines 72-94).
The `fetched_at` wall-clock timestamp is a non-optional column always filled
in by `upsert_page` itself; it is not modelled. -/
structure PageRecord where
  url : Url
  statusCode : Option Int
  contentType : Option String
  title : Option String
  textContent : Option String
deriving DecidableEq, Repr

/-- The record emitted for a transport failure (line 175):
`upsert_page(url, None, None, None, None)`. -/
def blankRecord (u : Url) : PageRecord :=
  { url := u, statusCode := none, contentType := none, title := none,
    textContent := none }

/-- A storage error raised by a Result Sink call. -/
inductive StorageError where
  | storage
deriving DecidableEq, Repr

/-- The mutable state of `SiteCrawler.crawl` plus observation traces:
`queue` and `visited` are the loop's `queue` deque and `visited` set (the set
is kept in insertion order — every insertion is guarded by a membership check,
so a list is faithful); `dequeued` records every popped-and-defragmented URL;
`fetched` records every URL passed to `self.session.get`; `pages` records the
`upsert_page` calls that completed and `links` the `insert_links` batches that
completed. -/
structure CrawlState where
  queue : List Url
  visited : List Url
  dequeued : List Url
  fetched : List Url
  pages : List PageRecord
  links : List (Url × List Url)
deriving DecidableEq, Repr

/-- The state at the top of `crawl` (lines 158-159):
`queue = deque([self.base_url])`, `visited = set()`. -/
def initState (cfg : Config) : CrawlState :=
  { queue := [cfg.base], visited := [], dequeued := [], fetched := [],
    pages := [], links := [] }

/-- Python's substring test `pat in s` on strings, written over the character
lists (used for the `"text/html" in content_type` check on line 183). -/
def strContains (s pat : String) : Bool :=
  go pat.toList s.toList
where
  go (p : List Char) : List Char → Bool
    | [] => p == []
    | c :: cs => p.isPrefixOf (c :: cs) || go p cs

/-- `content_type = response.headers.get("Content-Type", "").split(";")[0]`
(line 178).  The first element of a `split(";")` is the prefix of the string
up to (excluding) the first `';'`, or the whole string when there is none. -/
def contentTypeOf (header : String) : String :=
  String.mk (header.toList.takeWhile (fun c => c ≠ ';'))

/-- The robots clause of `allowed_url` (lines 150-154): pass when there is no
robots parser, otherwise ask `can_fetch` for the session's user agent. -/
def robotsAllows (cfg : Config) (u : Url) : Bool :=
  match cfg.robotParser with
  | none => true
  | some rp => rp.can_fetch cfg.userAgent u

/-- `SiteCrawler.allowed_url` (lines 138-155): scheme must be http or https,
a host must be present, the host must match the base host (exact match, or
string-suffix match when `include_subdomains` is set), and a present robots
parser must not veto the URL. -/
def allowed_url (cfg : Config) (u : Url) : Bool :=
  if !(u.scheme == "http" || u.scheme == "https") then false
  else if u.netloc == "" then false
  else if cfg.includeSubdomains then
    if !(u.netloc.endsWith cfg.base.netloc) then false
    else robotsAllows cfg u
  else if u.netloc != cfg.base.netloc then false
  else robotsAllows cfg u

/-- The link-discovery loop over the page's anchors (lines 187-192): each raw
href is resolved against the current page and defragmented; if the result is
eligible and not yet visited it is appended to the queue and added to the
`links_to_store` set (modelled as an insert-if-absent list — Python's
`set.add`). -/
def addLinks (env : Env) (cfg : Config) (u : Url) (visited : List Url) :
    List String → List Url × List Url → List Url × List Url
  | [], acc => acc
  | href :: hs, (q, lts) =>
    let nu := defrag (env.urljoin u href)
    if allowed_url cfg nu ∧ nu ∉ visited then
      addLinks env cfg u visited hs
        (q ++ [nu], if nu ∈ lts then lts else lts ++ [nu])
    else
      addLinks env cfg u visited hs (q, lts)

/-- The body of one crawl iteration after the URL has been marked visited
(lines 170-198): fetch; on transport failure emit a blank record and stop the
iteration; on success compute the content type, and iff it indicates HTML take
the title/text and run link discovery; then emit the page record and, if any
links were collected, the link batch.  A Result Sink call whose oracle flag is
set raises: the iteration (and, in `crawlFuel`, the whole loop) aborts with
`StorageError.storage`. -/
def processPage (env : Env) (cfg : Config) (u : Url) (st : CrawlState) :
    CrawlState × Option StorageError :=
  let st1 := { st with fetched := st.fetched ++ [u] }
  match env.fetch u with
  | none =>
    if env.upsertFail u then (st1, some StorageError.storage)
    else ({ st1 with pages := st1.pages ++ [blankRecord u] }, none)
  | some resp =>
    let ct := contentTypeOf resp.contentTypeHeader
    let isHtml := strContains ct "text/html"
    let tl : Option String := if isHtml then resp.title else none
    let tx : Option String := if isHtml then some resp.text else none
    let ql : List Url × List Url :=
      if isHtml then addLinks env cfg u st1.visited resp.hrefs (st1.queue, [])
      else (st1.queue, [])
    let st2 := { st1 with queue := ql.1 }
    if env.upsertFail u then (st2, some StorageError.storage)
    else
      let st3 := { st2 with pages := st2.pages ++
        [{ url := u, statusCode := some resp.statusCode,
           contentType := some ct, title := tl, textContent := tx }] }
      if ql.2 ≠ [] then
        if env.insertFail u then (st3, some StorageError.storage)
        else ({ st3 with links := st3.links ++ [(u, ql.2)] }, none)
      else (st3, none)

/-- One iteration of the crawl loop on a dequeued head `u` (lines 162-198):
defragment, skip if already visited, skip if ineligible, otherwise mark
visited and process the page. -/
def crawlIter (env : Env) (cfg : Config) (u : Url) (rest : List Url)
    (st : CrawlState) : CrawlState × Option StorageError :=
  let u' := defrag u
  let st1 := { st with queue := rest, dequeued := st.dequeued ++ [u'] }
  if u' ∈ st1.visited then (st1, none)
  else if !allowed_url cfg u' then (st1, none)
  else processPage env cfg u' { st1 with visited := st1.visited ++ [u'] }

/-- The crawl loop `while queue and len(visited) < self.max_pages` (lines
161-201), indexed by fuel.  `some (st, none)` is a normal termination (frontier
exhausted or budget reached — the Done state), `some (st, some e)` is the loop
terminating by an uncaught storage exception, and `none` means the fuel ran
out before the loop finished.  The `time.sleep` politeness pause (lines
200-201) has no observable effect and is not modelled. -/
def crawlFuel (env : Env) (cfg : Config) :
    Nat → CrawlState → Option (CrawlState × Option StorageError)
  | 0, _ => none
  | n + 1, st =>
    match st.queue with
    | [] => some (st, none)
    | u :: rest =>
      if st.visited.length < cfg.maxPages then
        match crawlIter env cfg u rest st with
        | (st', some e) => some (st', some e)
        | (st', none) => crawlFuel env cfg n st'
      else some (st, none)

/-- The Scope Policy host rule as the spec states it: the scheme is one of the
two web schemes, a host is present, and the host is the base host or (with
subdomain inclusion) a suffix match of it.  Stated separately from
`allowed_url` so that scope-containment is a genuine refinement check. -/
def specHostRule (cfg : Config) (u : Url) : Prop :=
  (u.scheme = "http" ∨ u.scheme = "https") ∧ u.netloc ≠ "" ∧
    (if cfg.includeSubdomains then u.netloc.endsWith cfg.base.netloc = true
     else u.netloc = cfg.base.netloc)

/-- The Result Sink never raises on this run. -/
def noFail (env : Env) : Prop :=
  ∀ u, env.upsertFail u = false ∧ env.insertFail u = false

/-- The loop invariant tying the traces together: the fetch trace is exactly
the visited set in insertion order; no URL is visited twice; every visited URL
passed the scope policy and is fragment-free; the budget bounds the visited
count; every emitted link batch is a nonempty duplicate-free list of eligible
targets; every emitted page record is for a visited URL. -/
def Inv (cfg : Config) (st : CrawlState) : Prop :=
  st.fetched = st.visited ∧
  st.visited.Nodup ∧
  (∀ u ∈ st.visited, allowed_url cfg u = true ∧ u.fragment = "") ∧
  st.visited.length ≤ cfg.maxPages ∧
  (∀ b ∈ st.links, b.2 ≠ [] ∧ b.2.Nodup ∧
    ∀ v ∈ b.2, allowed_url cfg v = true) ∧
  (∀ r ∈ st.pages, r.url ∈ st.visited)

/-! ### Concrete instances

A small concrete world used to exercise the embedding: the seed
`https://example.com`, one same-host child `/about`, and oracle environments
for a failing transport, an HTML page with one in-scope link, and a failing
Result Sink. -/

/-- The `User-Agent` of `DEFAULT_HEADERS` (lines 28-32). -/
def uaDefault : String :=
  "Mozilla/5.0 (compatible; SiteCrawler/1.0; +https://example.com/bot)"

/-- The parse of `https://example.com` (after `rstrip("/")`). -/
def exHome : Url := { scheme := "https", netloc := "example.com", path := "",
                      fragment := "" }

/-- The parse of `https://example.com/about`. -/
def exAbout : Url := { scheme := "https", netloc := "example.com",
                       path := "/about", fragment := "" }

/-- A seed whose scheme is not a web scheme. -/
def ftpHome : Url := { scheme := "ftp", netloc := "example.com", path := "",
                       fragment := "" }

/-- A configuration with budget 1 on `https://example.com`, no subdomains, no
robots. -/
def cfgEx : Config :=
  { base := exHome, maxPages := 1, delay := 0, includeSubdomains := false,
    robotParser := none, userAgent := uaDefault }

/-- A configuration whose seed has an ineligible scheme. -/
def cfgFtp : Config :=
  { base := ftpHome, maxPages := 5, delay := 0, includeSubdomains := false,
    robotParser := none, userAgent := uaDefault }

/-- Robots enforcement on, but the GET of `robots.txt` raised, so the parser
was never `parse`d. -/
def cfgRobotsDown : Config :=
  { base := exHome, maxPages := 5, delay := 0, includeSubdomains := false,
    robotParser := setupRobots true none, userAgent := uaDefault }

/-- A transport on which every request raises. -/
def envNoFetch : Env :=
  { fetch := fun _ => none, urljoin := fun u _ => u,
    upsertFail := fun _ => false, insertFail := fun _ => false }

/-- The response of the seed page: HTML with one relative link. -/
def respHome : Response :=
  { statusCode := 200, contentTypeHeader := "text/html; charset=utf-8",
    title := some "Home", text := "welcome", hrefs := ["/about"] }

/-- A transport serving `respHome` for the seed, failing elsewhere; the
resolver sends `/about` to `exAbout`. -/
def envHtml : Env :=
  { fetch := fun u => if u = exHome then some respHome else none,
    urljoin := fun u href => if href = "/about" then exAbout else u,
    upsertFail := fun _ => false, insertFail := fun _ => false }

/-- A transport on which every request raises and a Result Sink on which every
`upsert_page` raises. -/
def envSinkFail : Env :=
  { fetch := fun _ => none, urljoin := fun u _ => u,
    upsertFail := fun _ => true, insertFail := fun _ => false }

/-- The final state of the run of `cfgEx` under `envNoFetch`. -/
def stNoFetch : CrawlState :=
  { queue := [], visited := [exHome], dequeued := [exHome],
    fetched := [exHome], pages := [blankRecord exHome], links := [] }

/-- The page record for the seed under `envHtml`. -/
def recHome : PageRecord :=
  { url := exHome, statusCode := some 200, contentType := some "text/html",
    title := some "Home", textContent := some "welcome" }

/-- The final state of the run of `cfgEx` under `envHtml`. -/
def stHtml : CrawlState :=
  { queue := [exAbout], visited := [exHome], dequeued := [exHome],
    fetched := [exHome], pages := [recHome], links := [(exHome, [exAbout])] }

/-- The final state of the run of `cfgFtp` under `envNoFetch`: the seed is
dequeued, found ineligible, and dropped. -/
def stFtp : CrawlState :=
  { queue := [], visited := [], dequeued := [ftpHome], fetched := [],
    pages := [], links := [] }

/-- The state in which the run of `cfgEx` under `envSinkFail` aborts: the seed
was fetched (and the fetch raised), and the blank-record `upsert_page` then
raised a storage error. -/
def stSinkFail : CrawlState :=
  { queue := [], visited := [exHome], dequeued := [exHome],
    fetched := [exHome], pages := [], links := [] }

/-! ### Helper lemmas -/

/-- Link discovery only ever appends to the queue URLs that are eligible, not
yet visited, and fragment-free; the `links_to_store` accumulator keeps those
same properties and stays duplicate-free. -/
theorem addLinks_spec (env : Env) (cfg : Config) (u : Url) (visited : List Url) :
    ∀ (hs : List String) (q lts : List Url),
      (∀ v ∈ (addLinks env cfg u visited hs (q, lts)).1,
        v ∈ q ∨ (allowed_url cfg v = true ∧ v ∉ visited ∧ v.fragment = "")) ∧
      (∀ v ∈ (addLinks env cfg u visited hs (q, lts)).2,
        v ∈ lts ∨ (allowed_url cfg v = true ∧ v ∉ visited ∧ v.fragment = "")) ∧
      (lts.Nodup → (addLinks env cfg u visited hs (q, lts)).2.Nodup) := by
  intro hs
  induction hs with
  | nil =>
    intro q lts
    refine ⟨fun v hv => Or.inl hv, fun v hv => Or.inl hv, fun h => h⟩
  | cons href hs ih =>
    intro q lts
    by_cases hc : allowed_url cfg (defrag (env.urljoin u href)) = true ∧
        defrag (env.urljoin u href) ∉ visited
    · have hstep : addLinks env cfg u visited (href :: hs) (q, lts) =
          addLinks env cfg u visited hs
            (q ++ [defrag (env.urljoin u href)],
             if defrag (env.urljoin u href) ∈ lts then lts
             else lts ++ [defrag (env.urljoin u href)]) := by
        simp only [addLinks]
        rw [if_pos hc]
      rw [hstep]
      rcases ih (q ++ [defrag (env.urljoin u href)])
        (if defrag (env.urljoin u href) ∈ lts then lts
         else lts ++ [defrag (env.urljoin u href)]) with ⟨h1, h2, h3⟩
      refine ⟨fun v hv => ?_, fun v hv => ?_, fun hnd => ?_⟩
      · rcases h1 v hv with hq | hp
        · rcases List.mem_append.mp hq with hq' | hq'
          · exact Or.inl hq'
          · have : v = defrag (env.urljoin u href) := List.mem_singleton.mp hq'
            subst this
            exact Or.inr ⟨hc.1, hc.2, rfl⟩
        · exact Or.inr hp
      · rcases h2 v hv with hl | hp
        · by_cases hmem : defrag (env.urljoin u href) ∈ lts
          · rw [if_pos hmem] at hl
            exact Or.inl hl
          · rw [if_neg hmem] at hl
            rcases List.mem_append.mp hl with hl' | hl'
            · exact Or.inl hl'
            · have : v = defrag (env.urljoin u href) := List.mem_singleton.mp hl'
              subst this
              exact Or.inr ⟨hc.1, hc.2, rfl⟩
        · exact Or.inr hp
      · refine h3 ?_
        by_cases hmem : defrag (env.urljoin u href) ∈ lts
        · rwa [if_pos hmem]
        · rw [if_neg hmem]
          simp [List.nodup_append, hnd, hmem]
    · have hstep : addLinks env cfg u visited (href :: hs) (q, lts) =
          addLinks env cfg u visited hs (q, lts) := by
        simp only [addLinks]
        rw [if_neg hc]
      rw [hstep]
      exact ih q lts

/-- With a Result Sink that never raises, one page processing completes
normally: the fetch trace gains exactly the processed URL, exactly one page
record (for that URL) is emitted, the queue only gains eligible unvisited
fragment-free URLs, and at most one link batch — nonempty, duplicate-free,
all-eligible, all-unvisited — is emitted, keyed by the processed URL. -/
theorem processPage_ok (env : Env) (cfg : Config) (hnf : noFail env) (u : Url)
    (st : CrawlState) :
    ∃ q2 rec lb,
      processPage env cfg u st =
        ({ queue := q2, visited := st.visited, dequeued := st.dequeued,
           fetched := st.fetched ++ [u], pages := st.pages ++ [rec],
           links := st.links ++ lb }, none) ∧
      rec.url = u ∧
      (∀ v ∈ q2, v ∈ st.queue ∨
        (allowed_url cfg v = true ∧ v ∉ st.visited ∧ v.fragment = "")) ∧
      (lb = [] ∨ ∃ l, lb = [(u, l)] ∧ l ≠ [] ∧ l.Nodup ∧
        ∀ v ∈ l, allowed_url cfg v = true ∧ v ∉ st.visited ∧ v.fragment = "") := by
  have hup : env.upsertFail u = false := (hnf u).1
  have hins : env.insertFail u = false := (hnf u).2
  cases hfetch : env.fetch u with
  | none =>
    refine ⟨st.queue, blankRecord u, [], ?_, rfl, fun v hv => Or.inl hv,
      Or.inl rfl⟩
    simp [processPage, hfetch, hup]
  | some resp =>
    by_cases hhtml :
        strContains (contentTypeOf resp.contentTypeHeader) "text/html" = true
    · rcases addLinks_spec env cfg u st.visited resp.hrefs st.queue [] with
        ⟨h1, h2, h3⟩
      by_cases hlb :
          (addLinks env cfg u st.visited resp.hrefs (st.queue, [])).2 = []
      · refine ⟨(addLinks env cfg u st.visited resp.hrefs (st.queue, [])).1,
          { url := u, statusCode := some resp.statusCode,
            contentType := some (contentTypeOf resp.contentTypeHeader),
            title := resp.title, textContent := some resp.text }, [],
          ?_, rfl, ?_, Or.inl rfl⟩
        · simp [processPage, hfetch, hup, hhtml, hlb]
        · intro v hv
          rcases h1 v hv with h | h
          · exact Or.inl h
          · exact Or.inr h
      · refine ⟨(addLinks env cfg u st.visited resp.hrefs (st.queue, [])).1,
          { url := u, statusCode := some resp.statusCode,
            contentType := some (contentTypeOf resp.contentTypeHeader),
            title := resp.title, textContent := some resp.text },
          [(u, (addLinks env cfg u st.visited resp.hrefs (st.queue, [])).2)],
          ?_, rfl, ?_, ?_⟩
        · simp [processPage, hfetch, hup, hins, hhtml, hlb]
        · intro v hv
          rcases h1 v hv with h | h
          · exact Or.inl h
          · exact Or.inr h
        · refine Or.inr ⟨_, rfl, hlb, h3 List.nodup_nil, fun v hv => ?_⟩
          rcases h2 v hv with h | h
          · exact absurd h (List.not_mem_nil v)
          · exact h
    · refine ⟨st.queue,
        { url := u, statusCode := some resp.statusCode,
          contentType := some (contentTypeOf resp.contentTypeHeader),
          title := none, textContent := none }, [],
        ?_, rfl, fun v hv => Or.inl hv, Or.inl rfl⟩
      simp [processPage, hfetch, hup, hhtml]

/-- What one page processing can do to the state, whatever the transport and
the Result Sink do: `visited` and `dequeued` are untouched, the fetch trace
gains exactly the processed URL, the queue only gains eligible unvisited
fragment-free URLs, at most one page record (for the processed URL) is
appended, and at most one link batch — nonempty, duplicate-free,
all-eligible — is appended, keyed by the processed URL. -/
theorem processPage_any (env : Env) (cfg : Config) (u : Url) (st : CrawlState) :
    (processPage env cfg u st).1.visited = st.visited ∧
    (processPage env cfg u st).1.dequeued = st.dequeued ∧
    (processPage env cfg u st).1.fetched = st.fetched ++ [u] ∧
    (∀ v ∈ (processPage env cfg u st).1.queue, v ∈ st.queue ∨
      (allowed_url cfg v = true ∧ v ∉ st.visited ∧ v.fragment = "")) ∧
    ((processPage env cfg u st).1.pages = st.pages ∨
      ∃ rec, (processPage env cfg u st).1.pages = st.pages ++ [rec] ∧
        rec.url = u) ∧
    ((processPage env cfg u st).1.links = st.links ∨
      ∃ l, (processPage env cfg u st).1.links = st.links ++ [(u, l)] ∧
        l ≠ [] ∧ l.Nodup ∧ ∀ v ∈ l, allowed_url cfg v = true) := by
  cases hfetch : env.fetch u with
  | none =>
    by_cases hup : env.upsertFail u = true
    · simp [processPage, hfetch, hup]
      exact fun v hv => Or.inl hv
    · simp only [Bool.not_eq_true] at hup
      simp [processPage, hfetch, hup]
      exact ⟨fun v hv => Or.inl hv, rfl⟩
  | some resp =>
    by_cases hhtml :
        strContains (contentTypeOf resp.contentTypeHeader) "text/html" = true
    · rcases addLinks_spec env cfg u st.visited resp.hrefs st.queue [] with
        ⟨h1, h2, h3⟩
      have hq : ∀ v ∈ (addLinks env cfg u st.visited resp.hrefs
          (st.queue, [])).1, v ∈ st.queue ∨
          (allowed_url cfg v = true ∧ v ∉ st.visited ∧ v.fragment = "") := h1
      have hl : ∀ v ∈ (addLinks env cfg u st.visited resp.hrefs
          (st.queue, [])).2, allowed_url cfg v = true := by
        intro v hv
        rcases h2 v hv with h | h
        · exact absurd h (List.not_mem_nil v)
        · exact h.1
      by_cases hup : env.upsertFail u = true
      · simp [processPage, hfetch, hup, hhtml]
        exact hq
      · simp only [Bool.not_eq_true] at hup
        by_cases hlb :
            (addLinks env cfg u st.visited resp.hrefs (st.queue, [])).2 = []
        · simp [processPage, hfetch, hup, hhtml, hlb]
          exact hq
        · by_cases hins : env.insertFail u = true
          · simp [processPage, hfetch, hup, hhtml, hlb, hins]
            exact hq
          · simp only [Bool.not_eq_true] at hins
            simp [processPage, hfetch, hup, hhtml, hlb, hins]
            exact ⟨hq, h3 List.nodup_nil, hl⟩
    · by_cases hup : env.upsertFail u = true
      · simp [processPage, hfetch, hup, hhtml]
        exact fun v hv => Or.inl hv
      · simp only [Bool.not_eq_true] at hup
        simp [processPage, hfetch, hup, hhtml]
        exact fun v hv => Or.inl hv

/-- One loop iteration either skips the dequeued URL (already visited, or
ineligible: the state only loses the queue head and records the dequeue), or
processes it: the defragmented URL is appended to `visited`, `dequeued` and
the fetch trace, the queue only gains eligible not-yet-visited fragment-free
URLs, and at most one page record and one link batch are emitted for it. -/
theorem crawlIter_cases (env : Env) (cfg : Config) (u : Url) (rest : List Url)
    (st : CrawlState) :
    (crawlIter env cfg u rest st =
      ({ st with queue := rest, dequeued := st.dequeued ++ [defrag u] },
        none) ∧
      (defrag u ∈ st.visited ∨ allowed_url cfg (defrag u) = false)) ∨
    (defrag u ∉ st.visited ∧ allowed_url cfg (defrag u) = true ∧
      (crawlIter env cfg u rest st).1.visited = st.visited ++ [defrag u] ∧
      (crawlIter env cfg u rest st).1.dequeued = st.dequeued ++ [defrag u] ∧
      (crawlIter env cfg u rest st).1.fetched = st.fetched ++ [defrag u] ∧
      (∀ v ∈ (crawlIter env cfg u rest st).1.queue, v ∈ rest ∨
        (allowed_url cfg v = true ∧ v ∉ (st.visited ++ [defrag u]) ∧
          v.fragment = "")) ∧
      ((crawlIter env cfg u rest st).1.pages = st.pages ∨
        ∃ rec, (crawlIter env cfg u rest st).1.pages = st.pages ++ [rec] ∧
          rec.url = defrag u) ∧
      ((crawlIter env cfg u rest st).1.links = st.links ∨
        ∃ l, (crawlIter env cfg u rest st).1.links =
            st.links ++ [(defrag u, l)] ∧
          l ≠ [] ∧ l.Nodup ∧ ∀ v ∈ l, allowed_url cfg v = true)) := by
  by_cases hvis : defrag u ∈ st.visited
  · left
    constructor
    · simp [crawlIter, hvis]
    · exact Or.inl hvis
  · by_cases hall : allowed_url cfg (defrag u) = true
    · right
      have hiter : crawlIter env cfg u rest st =
          processPage env cfg (defrag u)
            { st with
                queue := rest,
                dequeued := st.dequeued ++ [defrag u],
                visited := st.visited ++ [defrag u] } := by
        simp [crawlIter, hvis, hall]
      rcases processPage_any env cfg (defrag u)
          ({ st with
              queue := rest,
              dequeued := st.dequeued ++ [defrag u],
              visited := st.visited ++ [defrag u] }) with
        ⟨h1, h2, h3, h4, h5, h6⟩
      simp only [] at h1 h2 h3 h4 h5 h6
      rw [hiter]
      exact ⟨hvis, hall, h1, h2, h3,
        fun v hv => (h4 v hv).imp id (fun h => ⟨h.1, h.2.1, h.2.2⟩), h5, h6⟩
    · left
      have hall' : allowed_url cfg (defrag u) = false := by
        simpa using hall
      constructor
      · simp [crawlIter, hvis, hall']
      · exact Or.inr hall'

/-- Shape of an iteration for the termination measure: a skip leaves
`visited` unchanged and shrinks the queue to the tail; a processing step
grows `visited` by exactly one entry. -/
theorem crawlIter_shape (env : Env) (cfg : Config) (u : Url) (rest : List Url)
    (st : CrawlState) :
    ((crawlIter env cfg u rest st).1.visited = st.visited ∧
      (crawlIter env cfg u rest st).1.queue = rest) ∨
    (crawlIter env cfg u rest st).1.visited = st.visited ++ [defrag u] := by
  rcases crawlIter_cases env cfg u rest st with ⟨heq, _⟩ | ⟨_, _, h1, _⟩
  · left
    rw [heq]
    exact ⟨rfl, rfl⟩
  · right
    exact h1

/-- The invariant holds initially. -/
theorem Inv_init (cfg : Config) : Inv cfg (initState cfg) := by
  refine ⟨rfl, List.nodup_nil, ?_, ?_, ?_, ?_⟩ <;> simp [initState]

/-- A guarded iteration preserves the loop invariant. -/
theorem crawlIter_inv (env : Env) (cfg : Config) (u : Url) (rest : List Url)
    (st : CrawlState) (h : Inv cfg st)
    (hguard : st.visited.length < cfg.maxPages) :
    Inv cfg (crawlIter env cfg u rest st).1 := by
  obtain ⟨hfv, hnd, hvall, hlen, hlinks, hpages⟩ := h
  rcases crawlIter_cases env cfg u rest st with ⟨heq, _⟩ |
    ⟨hnv, hall, h1, h2, h3, h4, h5, h6⟩
  · rw [heq]
    exact ⟨hfv, hnd, hvall, hlen, hlinks, hpages⟩
  · refine ⟨?_, ?_, ?_, ?_, ?_, ?_⟩
    · rw [h3, h1, hfv]
    · rw [h1]
      simp [List.nodup_append, hnd, hnv]
    · rw [h1]
      intro v hv
      rcases List.mem_append.mp hv with hv' | hv'
      · exact hvall v hv'
      · have : v = defrag u := List.mem_singleton.mp hv'
        subst this
        exact ⟨hall, rfl⟩
    · rw [h1]
      simp only [List.length_append, List.length_singleton]
      omega
    · intro b hb
      rcases h6 with h6' | ⟨l, h6', hl1, hl2, hl3⟩
      · rw [h6'] at hb
        exact hlinks b hb
      · rw [h6'] at hb
        rcases List.mem_append.mp hb with hb' | hb'
        · exact hlinks b hb'
        · have : b = (defrag u, l) := List.mem_singleton.mp hb'
          subst this
          exact ⟨hl1, hl2, hl3⟩
    · intro r hr
      rw [h1]
      rcases h5 with h5' | ⟨rec, h5', hrec⟩
      · rw [h5'] at hr
        exact List.mem_append_left _ (hpages r hr)
      · rw [h5'] at hr
        rcases List.mem_append.mp hr with hr' | hr'
        · exact List.mem_append_left _ (hpages r hr')
        · have : r = rec := List.mem_singleton.mp hr'
          subst this
          rw [hrec]
          exact List.mem_append_right _ (List.mem_singleton_self _)

/-- Any completed (or aborted) run starting from an invariant state ends in an
invariant state. -/
theorem crawlFuel_inv (env : Env) (cfg : Config) :
    ∀ (n : Nat) (st stf : CrawlState) (e : Option StorageError),
      Inv cfg st → crawlFuel env cfg n st = some (stf, e) → Inv cfg stf := by
  intro n
  induction n with
  | zero =>
    intro st stf e _ hcf
    simp [crawlFuel] at hcf
  | succ n ih =>
    intro st stf e hinv hcf
    rcases hqu : st.queue with _ | ⟨u, rest⟩
    · simp only [crawlFuel, hqu, Option.some.injEq, Prod.mk.injEq] at hcf
      rw [← hcf.1]
      exact hinv
    · by_cases hg : st.visited.length < cfg.maxPages
      · rcases hit : crawlIter env cfg u rest st with ⟨st', e'⟩
        have hinv' : Inv cfg st' := by
          have := crawlIter_inv env cfg u rest st hinv hg
          rw [hit] at this
          exact this
        cases e' with
        | some err =>
          simp only [crawlFuel, hqu, hg, if_true, hit, Option.some.injEq,
            Prod.mk.injEq] at hcf
          rw [← hcf.1]
          exact hinv'
        | none =>
          simp only [crawlFuel, hqu, hg, if_true, hit] at hcf
          exact ih st' stf e hinv' hcf
      · simp only [crawlFuel, hqu, hg, if_false, Option.some.injEq,
          Prod.mk.injEq] at hcf
        rw [← hcf.1]
        exact hinv

/-- The visited set grows monotonically across a run: the starting visited
list is a prefix of the final one. -/
theorem crawlFuel_visited_mono (env : Env) (cfg : Config) :
    ∀ (n : Nat) (st stf : CrawlState) (e : Option StorageError),
      crawlFuel env cfg n st = some (stf, e) →
      st.visited <+: stf.visited := by
  intro n
  induction n with
  | zero =>
    intro st stf e hcf
    simp [crawlFuel] at hcf
  | succ n ih =>
    intro st stf e hcf
    rcases hqu : st.queue with _ | ⟨u, rest⟩
    · simp only [crawlFuel, hqu, Option.some.injEq, Prod.mk.injEq] at hcf
      rw [← hcf.1]
    · by_cases hg : st.visited.length < cfg.maxPages
      · rcases hit : crawlIter env cfg u rest st with ⟨st', e'⟩
        have hpre : st.visited <+: st'.visited := by
          rcases crawlIter_shape env cfg u rest st with ⟨hv, _⟩ | hv <;>
            rw [hit] at hv
          · rw [hv]
          · rw [hv]
            exact List.prefix_append _ _
        cases e' with
        | some err =>
          simp only [crawlFuel, hqu, hg, if_true, hit, Option.some.injEq,
            Prod.mk.injEq] at hcf
          rw [← hcf.1]
          exact hpre
        | none =>
          simp only [crawlFuel, hqu, hg, if_true, hit] at hcf
          exact hpre.trans (ih st' stf e hcf)
      · simp only [crawlFuel, hqu, hg, if_false, Option.some.injEq,
          Prod.mk.injEq] at hcf
        rw [← hcf.1]

/-- With a Result Sink that never raises, no iteration raises. -/
theorem crawlIter_noFail (env : Env) (cfg : Config) (hnf : noFail env)
    (u : Url) (rest : List Url) (st : CrawlState) :
    (crawlIter env cfg u rest st).2 = none := by
  by_cases hvis : defrag u ∈ st.visited
  · simp [crawlIter, hvis]
  · by_cases hall : allowed_url cfg (defrag u) = true
    · have hiter : crawlIter env cfg u rest st =
          processPage env cfg (defrag u)
            { st with
                queue := rest,
                dequeued := st.dequeued ++ [defrag u],
                visited := st.visited ++ [defrag u] } := by
        simp [crawlIter, hvis, hall]
      rcases processPage_ok env cfg hnf (defrag u)
          ({ st with
              queue := rest,
              dequeued := st.dequeued ++ [defrag u],
              visited := st.visited ++ [defrag u] }) with
        ⟨q2, rec, lb, heq, _⟩
      rw [hiter, heq]
    · have hall' : allowed_url cfg (defrag u) = false := by
        simpa using hall
      simp [crawlIter, hvis, hall']

/-- With a Result Sink that never raises, a completed run never ends with a
storage error, and it stops only because the frontier is exhausted or the
budget is reached. -/
theorem crawlFuel_noFail (env : Env) (cfg : Config) (hnf : noFail env) :
    ∀ (n : Nat) (st stf : CrawlState) (e : Option StorageError),
      crawlFuel env cfg n st = some (stf, e) →
      e = none ∧ (stf.queue = [] ∨ cfg.maxPages ≤ stf.visited.length) := by
  intro n
  induction n with
  | zero =>
    intro st stf e hcf
    simp [crawlFuel] at hcf
  | succ n ih =>
    intro st stf e hcf
    rcases hqu : st.queue with _ | ⟨u, rest⟩
    · simp only [crawlFuel, hqu, Option.some.injEq, Prod.mk.injEq] at hcf
      refine ⟨hcf.2.symm, Or.inl ?_⟩
      rw [← hcf.1, hqu]
    · by_cases hg : st.visited.length < cfg.maxPages
      · rcases hit : crawlIter env cfg u rest st with ⟨st', e'⟩
        have he' : e' = none := by
          have := crawlIter_noFail env cfg hnf u rest st
          rw [hit] at this
          exact this
        subst he'
        simp only [crawlFuel, hqu, hg, if_true, hit] at hcf
        exact ih st' stf e hcf
      · simp only [crawlFuel, hqu, hg, if_false, Option.some.injEq,
          Prod.mk.injEq] at hcf
        refine ⟨hcf.2.symm, Or.inr ?_⟩
        rw [← hcf.1]
        omega

/-- Once the budget is reached, the loop stops immediately. -/
theorem crawlFuel_budget_stop (env : Env) (cfg : Config) (n : Nat)
    (st stf : CrawlState) (e : Option StorageError)
    (hb : cfg.maxPages ≤ st.visited.length)
    (hcf : crawlFuel env cfg n st = some (stf, e)) : stf = st ∧ e = none := by
  cases n with
  | zero => simp [crawlFuel] at hcf
  | succ n =>
    rcases hqu : st.queue with _ | ⟨u, rest⟩
    · simp only [crawlFuel, hqu, Option.some.injEq, Prod.mk.injEq] at hcf
      exact ⟨hcf.1.symm, hcf.2.symm⟩
    · have hg : ¬st.visited.length < cfg.maxPages := by omega
      simp only [crawlFuel, hqu, hg, if_false, Option.some.injEq,
        Prod.mk.injEq] at hcf
      exact ⟨hcf.1.symm, hcf.2.symm⟩

/-- The crawl loop always terminates: enough fuel exists for any start state,
because the budget strictly bounds the visited count and a skipped head
shrinks the queue. -/
theorem crawlFuel_total (env : Env) (cfg : Config) :
    ∀ (k q : Nat) (st : CrawlState),
      cfg.maxPages - st.visited.length ≤ k → st.queue.length ≤ q →
      ∃ n r, crawlFuel env cfg n st = some r := by
  intro k
  induction k with
  | zero =>
    intro q st hk _
    rcases hqu : st.queue with _ | ⟨u, rest⟩
    · exact ⟨1, (st, none), by simp [crawlFuel, hqu]⟩
    · have hg : ¬st.visited.length < cfg.maxPages := by omega
      exact ⟨1, (st, none), by simp [crawlFuel, hqu, hg]⟩
  | succ k ihk =>
    intro q
    induction q with
    | zero =>
      intro st _ hq
      have hqu : st.queue = [] := List.eq_nil_of_length_eq_zero (by omega)
      exact ⟨1, (st, none), by simp [crawlFuel, hqu]⟩
    | succ q ihq =>
      intro st hk hq
      rcases hqu : st.queue with _ | ⟨u, rest⟩
      · exact ⟨1, (st, none), by simp [crawlFuel, hqu]⟩
      · by_cases hg : st.visited.length < cfg.maxPages
        · rcases hit : crawlIter env cfg u rest st with ⟨st', e'⟩
          cases e' with
          | some err =>
            refine ⟨1, (st', some err), ?_⟩
            simp [crawlFuel, hqu, hg, hit]
          | none =>
            rcases crawlIter_shape env cfg u rest st with ⟨hv, hqe⟩ | hv
            · rw [hit] at hv hqe
              simp only [] at hv hqe
              have hrest : st'.queue.length ≤ q := by
                rw [hqe]
                have : st.queue.length ≤ q + 1 := hq
                rw [hqu] at this
                simpa using this
              rcases ihq st' (by rw [hv]; exact hk) hrest with ⟨n, r, hn⟩
              refine ⟨n + 1, r, ?_⟩
              simp only [crawlFuel, hqu, hg, if_true, hit]
              exact hn
            · rw [hit] at hv
              simp only [] at hv
              have hk' : cfg.maxPages - st'.visited.length ≤ k := by
                rw [hv]
                simp only [List.length_append, List.length_singleton]
                omega
              rcases ihk st'.queue.length st' hk' le_rfl with ⟨n, r, hn⟩
              refine ⟨n + 1, r, ?_⟩
              simp only [crawlFuel, hqu, hg, if_true, hit]
              exact hn
        · exact ⟨1, (st, none), by simp [crawlFuel, hqu, hg]⟩

/-- When every fetch raises and the Result Sink never does, an iteration
either skips its head or emits exactly the blank record for it — and never
enqueues anything. -/
theorem crawlIter_allFail (env : Env) (cfg : Config)
    (hf : ∀ u, env.fetch u = none) (hnf : noFail env)
    (u : Url) (rest : List Url) (st : CrawlState) :
    crawlIter env cfg u rest st =
      ({ st with queue := rest, dequeued := st.dequeued ++ [defrag u] },
        none) ∨
    crawlIter env cfg u rest st =
      ({ st with
          queue := rest,
          dequeued := st.dequeued ++ [defrag u],
          visited := st.visited ++ [defrag u],
          fetched := st.fetched ++ [defrag u],
          pages := st.pages ++ [blankRecord (defrag u)] }, none) := by
  by_cases hvis : defrag u ∈ st.visited
  · left
    simp [crawlIter, hvis]
  · by_cases hall : allowed_url cfg (defrag u) = true
    · right
      have hup : env.upsertFail (defrag u) = false := (hnf (defrag u)).1
      simp [crawlIter, hvis, hall, processPage, hf (defrag u), hup]
    · left
      have hall' : allowed_url cfg (defrag u) = false := by
        simpa using hall
      simp [crawlIter, hvis, hall']

/-- When every fetch raises and the Result Sink never does, a run emits
exactly one blank record per newly visited URL, emits no link edges, and
never grows the queue. -/
theorem crawlFuel_allFail (env : Env) (cfg : Config)
    (hf : ∀ u, env.fetch u = none) (hnf : noFail env) :
    ∀ (n : Nat) (st stf : CrawlState) (e : Option StorageError),
      crawlFuel env cfg n st = some (stf, e) →
      ∃ newly, stf.visited = st.visited ++ newly ∧
        stf.pages = st.pages ++ newly.map blankRecord ∧
        stf.links = st.links ∧ stf.queue <:+ st.queue := by
  intro n
  induction n with
  | zero =>
    intro st stf e hcf
    simp [crawlFuel] at hcf
  | succ n ih =>
    intro st stf e hcf
    rcases hqu : st.queue with _ | ⟨u, rest⟩
    · simp only [crawlFuel, hqu, Option.some.injEq, Prod.mk.injEq] at hcf
      rw [← hcf.1]
      exact ⟨[], by simp, by simp, rfl, by rw [hqu]⟩
    · by_cases hg : st.visited.length < cfg.maxPages
      · have hsuf : rest <:+ u :: rest := ⟨[u], rfl⟩
        rcases crawlIter_allFail env cfg hf hnf u rest st with hit | hit
        · simp only [crawlFuel, hqu, hg, if_true, hit] at hcf
          rcases ih _ stf e hcf with ⟨newly, h1, h2, h3, h4⟩
          simp only [] at h1 h2 h3 h4
          exact ⟨newly, h1, h2, h3, h4.trans hsuf⟩
        · simp only [crawlFuel, hqu, hg, if_true, hit] at hcf
          rcases ih _ stf e hcf with ⟨newly, h1, h2, h3, h4⟩
          simp only [] at h1 h2 h3 h4
          refine ⟨defrag u :: newly, ?_, ?_, h3, h4.trans hsuf⟩
          · rw [h1]
            simp
          · rw [h2]
            simp
      · simp only [crawlFuel, hqu, hg, if_false, Option.some.injEq,
          Prod.mk.injEq] at hcf
        rw [← hcf.1]
        refine ⟨[], by simp, by simp, rfl, ?_⟩
        rw [hqu]

/-- Refinement of the scope check: every URL that passes `allowed_url`
satisfies the spec's host rule (scheme, host presence, host match). -/
theorem allowed_url_host (cfg : Config) (u : Url)
    (h : allowed_url cfg u = true) : specHostRule cfg u := by
  unfold allowed_url at h
  unfold specHostRule
  split_ifs at h with h1 h2 h3 h4 h5
  · refine ⟨by rw [or_iff_not_imp_left]; simpa using h1, by simpa using h2, ?_⟩
    rw [if_pos h3]
    simpa using h4
  · refine ⟨by rw [or_iff_not_imp_left]; simpa using h1, by simpa using h2, ?_⟩
    rw [if_neg h3]
    simpa using h5

/-- If the queue is empty the loop stops at once. -/
theorem crawlFuel_nil_queue (env : Env) (cfg : Config) (n : Nat)
    (st stf : CrawlState) (e : Option StorageError) (hq : st.queue = [])
    (hcf : crawlFuel env cfg n st = some (stf, e)) : stf = st ∧ e = none := by
  cases n with
  | zero => simp [crawlFuel] at hcf
  | succ n =>
    simp only [crawlFuel, hq, Option.some.injEq, Prod.mk.injEq] at hcf
    exact ⟨hcf.1.symm, hcf.2.symm⟩

/-! ### The claims -/

/-- C9: for every configuration (the page budget is a natural number, hence
finite) and every fetch/extract oracle (each page yields a finite list of
outbound links), the crawl loop terminates: some finite fuel completes the
run, because the budget strictly bounds the visited count and a skipped head
shrinks the queue. -/
theorem c9_crawl_terminates (env : Env) (cfg : Config) (st : CrawlState) :
    ∃ n r, crawlFuel env cfg n st = some r :=
  crawlFuel_total env cfg (cfg.maxPages - st.visited.length)
    st.queue.length st le_rfl le_rfl

/-- C7: after any run, the number of visited URLs is at most the configured
page budget, and the URLs passed to the Fetch Client are exactly the visited
URLs (so fetch attempts are bounded by the budget too). -/
theorem c7_budget_respected (env : Env) (cfg : Config) (n : Nat)
    (stf : CrawlState) (e : Option StorageError)
    (hcf : crawlFuel env cfg n (initState cfg) = some (stf, e)) :
    stf.visited.length ≤ cfg.maxPages ∧ stf.fetched = stf.visited := by
  have h := crawlFuel_inv env cfg n (initState cfg) stf e (Inv_init cfg) hcf
  exact ⟨h.2.2.2.1, h.1⟩

/-- Witness for C7 on a concrete run. -/
theorem c7_budget_respected_witness :
    stNoFetch.visited.length ≤ cfgEx.maxPages ∧
    stNoFetch.fetched = stNoFetch.visited :=
  c7_budget_respected envNoFetch cfgEx 2 stNoFetch none (by decide)

/-- C6: across one run, the list of URLs passed to the Fetch Client contains
no repeats, and every such URL is already fragment-stripped (so the no-repeat
statement is exactly "no URL, compared after fragment stripping, is fetched
twice"). -/
theorem c6_no_duplicate_fetches (env : Env) (cfg : Config) (n : Nat)
    (stf : CrawlState) (e : Option StorageError)
    (hcf : crawlFuel env cfg n (initState cfg) = some (stf, e)) :
    stf.fetched.Nodup ∧ ∀ u ∈ stf.fetched, u.fragment = "" := by
  have h := crawlFuel_inv env cfg n (initState cfg) stf e (Inv_init cfg) hcf
  rw [h.1]
  exact ⟨h.2.1, fun u hu => (h.2.2.1 u hu).2⟩

/-- Witness for C6 on a concrete run. -/
theorem c6_no_duplicate_fetches_witness : stHtml.fetched.Nodup :=
  (c6_no_duplicate_fetches envHtml cfgEx 2 stHtml none (by decide)).1

/-- C4: every URL passed to the Fetch Client, and the URL of every emitted
PageRecord, has an http or https scheme and satisfies the host rule (exact
base-host match, or suffix match when subdomain inclusion is enabled); no
out-of-scope URL is ever fetched. -/
theorem c4_scope_containment (env : Env) (cfg : Config) (n : Nat)
    (stf : CrawlState) (e : Option StorageError)
    (hcf : crawlFuel env cfg n (initState cfg) = some (stf, e)) :
    (∀ u ∈ stf.fetched, specHostRule cfg u) ∧
    (∀ r ∈ stf.pages, specHostRule cfg r.url) := by
  have h := crawlFuel_inv env cfg n (initState cfg) stf e (Inv_init cfg) hcf
  constructor
  · intro u hu
    rw [h.1] at hu
    exact allowed_url_host cfg u (h.2.2.1 u hu).1
  · intro r hr
    exact allowed_url_host cfg r.url (h.2.2.1 r.url (h.2.2.2.2.2 r hr)).1

/-- Witness for C4 on a concrete run. -/
theorem c4_scope_containment_witness : specHostRule cfgEx exHome :=
  (c4_scope_containment envHtml cfgEx 2 stHtml none (by decide)).1
    exHome (by decide)

/-- C10: every emitted link batch is duplicate-free: at most one edge per
distinct normalized target within a page's batch, however often the page's
markup repeats an href (`links_to_store` is a set). -/
theorem c10_batch_targets_nodup (env : Env) (cfg : Config) (n : Nat)
    (stf : CrawlState) (e : Option StorageError)
    (hcf : crawlFuel env cfg n (initState cfg) = some (stf, e)) :
    ∀ b ∈ stf.links, b.2.Nodup := by
  have h := crawlFuel_inv env cfg n (initState cfg) stf e (Inv_init cfg) hcf
  exact fun b hb => (h.2.2.2.2.1 b hb).2.1

/-- Witness for C10 on a concrete run. -/
theorem c10_batch_targets_nodup_witness : ([exAbout] : List Url).Nodup :=
  c10_batch_targets_nodup envHtml cfgEx 2 stHtml none (by decide)
    (exHome, [exAbout]) (by decide)

/-- C5 counterexample: in a concrete run whose seed has an ineligible scheme,
the seed is dequeued and found ineligible yet is NOT inserted into the
VisitedSet — refuting "every URL dequeued and found ineligible is inserted
into the VisitedSet". -/
theorem c5_counterexample :
    crawlFuel envNoFetch cfgFtp 2 (initState cfgFtp) = some (stFtp, none) ∧
    ftpHome ∈ stFtp.dequeued ∧ allowed_url cfgFtp ftpHome = false ∧
    ftpHome ∉ stFtp.visited := by decide

/-- C5 (amended): a URL dequeued and found ineligible is NOT inserted into
the VisitedSet (only eligible, processed URLs ever are); the VisitedSet grows
monotonically across the run; no URL is fetched twice (the fetch trace is the
duplicate-free visited list); and an iteration never enqueues a URL that is
in the VisitedSet at the end of that iteration. -/
theorem c5_visited_discipline (env : Env) (cfg : Config) :
    (∀ (n : Nat) (stf : CrawlState) (e : Option StorageError),
      crawlFuel env cfg n (initState cfg) = some (stf, e) →
      (∀ u ∈ stf.dequeued, allowed_url cfg u = false → u ∉ stf.visited) ∧
      stf.visited.Nodup ∧ stf.fetched = stf.visited) ∧
    (∀ (n : Nat) (st stf : CrawlState) (e : Option StorageError),
      crawlFuel env cfg n st = some (stf, e) → st.visited <+: stf.visited) ∧
    (∀ (u : Url) (rest : List Url) (st : CrawlState),
      ∀ v ∈ (crawlIter env cfg u rest st).1.queue,
        v ∈ rest ∨ v ∉ (crawlIter env cfg u rest st).1.visited) := by
  refine ⟨?_, ?_, ?_⟩
  · intro n stf e hcf
    have h := crawlFuel_inv env cfg n (initState cfg) stf e (Inv_init cfg) hcf
    refine ⟨?_, h.2.1, h.1⟩
    intro u _ hbad hmem
    have := (h.2.2.1 u hmem).1
    rw [this] at hbad
    cases hbad
  · intro n st stf e hcf
    exact crawlFuel_visited_mono env cfg n st stf e hcf
  · intro u rest st v hv
    rcases crawlIter_cases env cfg u rest st with ⟨heq, _⟩ |
      ⟨_, _, h1, _, _, h4, _, _⟩
    · rw [heq] at hv
      exact Or.inl hv
    · rcases h4 v hv with h | h
      · exact Or.inl h
      · right
        rw [h1]
        exact h.2.1

/-- Witness for the amended C5 on a concrete run. -/
theorem c5_visited_discipline_witness : ftpHome ∉ stFtp.visited :=
  ((c5_visited_discipline envNoFetch cfgFtp).1 2 stFtp none (by decide)).1
    ftpHome (by decide) (by decide)

/-- C1 counterexample: a run in which the Result Sink raises on `upsert_page`
halts the crawl loop by propagating the storage error — the loop does not
continue and does not reach a normal Done state, refuting "a failure of a
Result Sink call does not halt the crawl loop". -/
theorem c1_counterexample :
    crawlFuel envSinkFail cfgEx 1 (initState cfgEx) =
      some (stSinkFail, some StorageError.storage) := by decide

/-- C1 (amended): a storage error from `upsert_page` or `insert_links`
propagates out of the crawl loop and halts the run; in the absence of storage
errors the loop never terminates by raising — it reaches the Done state,
ending only by frontier exhaustion or by reaching the page budget. -/
theorem c1_no_storage_failure_done (env : Env) (cfg : Config)
    (hnf : noFail env) (n : Nat) (st stf : CrawlState)
    (e : Option StorageError)
    (hcf : crawlFuel env cfg n st = some (stf, e)) :
    e = none ∧ (stf.queue = [] ∨ cfg.maxPages ≤ stf.visited.length) :=
  crawlFuel_noFail env cfg hnf n st stf e hcf

/-- Witness for the amended C1 on a concrete run. -/
theorem c1_no_storage_failure_done_witness :
    (none : Option StorageError) = none ∧
    (stNoFetch.queue = [] ∨ cfgEx.maxPages ≤ stNoFetch.visited.length) :=
  c1_no_storage_failure_done envNoFetch cfgEx (fun _ => ⟨rfl, rfl⟩) 2
    (initState cfgEx) stNoFetch none (by decide)

/-- C2 counterexample: robots enforcement is on and the robots fetch raised,
so the parser was never parsed; the seed itself is scheme- and host-eligible
(and is accepted when no robots parser is present), yet `allowed_url` rejects
it — the unretrievable robots policy does NOT behave as "allow all". -/
theorem c2_counterexample :
    exHome.scheme = "https" ∧ exHome.netloc = cfgRobotsDown.base.netloc ∧
    allowed_url cfgEx exHome = true ∧
    allowed_url cfgRobotsDown exHome = false := by decide

/-- C2 (amended): when robots enforcement is enabled and the robots resource
cannot be retrieved — the request raises, or the response is not OK — the
never-parsed `RobotFileParser` denies every URL (`can_fetch` is false while
`last_checked` is unset), so `allowed_url` rejects every URL: the policy is
fail-closed ("deny all"), not "allow all". -/
theorem c2_unretrieved_robots_denies_all (base : Url) (mp d : Nat)
    (inc : Bool) (ua : String) (rules : String → Url → Bool) (u : Url) :
    allowed_url (Config.mk base mp d inc (setupRobots true none) ua) u =
      false ∧
    allowed_url
      (Config.mk base mp d inc
        (setupRobots true (some (RobotsResponse.mk false rules))) ua) u =
      false := by
  constructor <;>
  · unfold allowed_url
    split_ifs <;>
      simp [robotsAllows, setupRobots, RobotFileParser.can_fetch,
        RobotFileParser.new]

/-- C3 counterexample: a budget-1, delay-0 run whose seed page is HTML with
one eligible link emits one PageRecord for the seed AND a nonempty LinkEdge
batch — refuting "zero LinkEdges are emitted regardless of page content". -/
theorem c3_counterexample :
    cfgEx.maxPages = 1 ∧ cfgEx.delay = 0 ∧
    crawlFuel envHtml cfgEx 2 (initState cfgEx) = some (stHtml, none) ∧
    stHtml.pages.map PageRecord.url = [exHome] ∧
    stHtml.links ≠ [] := by decide

/-- C3 (amended): for a run with page budget 1 and delay 0 whose seed is
eligible and whose Result Sink never raises, exactly one PageRecord (for the
defragmented seed URL) is emitted; link edges are NOT necessarily absent: at
most one batch is emitted, keyed by the seed, holding the distinct eligible
not-yet-visited links discovered on the seed page. -/
theorem c3_budget_one (env : Env) (cfg : Config) (n : Nat)
    (stf : CrawlState) (e : Option StorageError)
    (hb : cfg.maxPages = 1) (_hd : cfg.delay = 0)
    (hseed : allowed_url cfg (defrag cfg.base) = true) (hnf : noFail env)
    (hcf : crawlFuel env cfg n (initState cfg) = some (stf, e)) :
    stf.pages.map PageRecord.url = [defrag cfg.base] ∧
    (stf.links = [] ∨ ∃ l, stf.links = [(defrag cfg.base, l)] ∧ l ≠ [] ∧
      l.Nodup) := by
  cases n with
  | zero => simp [crawlFuel] at hcf
  | succ m =>
    rcases processPage_ok env cfg hnf (defrag cfg.base)
        (CrawlState.mk [] [defrag cfg.base] [defrag cfg.base] [] [] []) with
      ⟨q2, rec, lb, heq, hrec, _, hlb⟩
    have hiter : crawlIter env cfg cfg.base [] (initState cfg) =
        processPage env cfg (defrag cfg.base)
          (CrawlState.mk [] [defrag cfg.base] [defrag cfg.base] [] [] []) := by
      simp [crawlIter, initState, hseed]
    rw [heq] at hiter
    have hg : (initState cfg).visited.length < cfg.maxPages := by
      simp [initState, hb]
    have hq0 : (initState cfg).queue = [cfg.base] := rfl
    simp only [crawlFuel, hq0, hg, if_true, hiter] at hcf
    have hstop := crawlFuel_budget_stop env cfg m _ stf e
      (by simp [hb]) hcf
    rw [hstop.1]
    constructor
    · simp [hrec]
    · rcases hlb with h | ⟨l, hl, hl1, hl2, _⟩
      · left
        simp [h]
      · right
        exact ⟨l, by simp [hl], hl1, hl2⟩

/-- Witness for the amended C3 on a concrete run. -/
theorem c3_budget_one_witness :
    stHtml.pages.map PageRecord.url = [defrag cfgEx.base] ∧
    (stHtml.links = [] ∨ ∃ l, stHtml.links = [(defrag cfgEx.base, l)] ∧
      l ≠ [] ∧ l.Nodup) :=
  c3_budget_one envHtml cfgEx 2 stHtml none rfl rfl (by decide)
    (fun _ => ⟨rfl, rfl⟩) (by decide)

/-- C8: if every fetch raises a transport failure (and the Result Sink never
raises), the run terminates, emits exactly one PageRecord per eligible
offered URL up to the budget — from the seed frontier that is one blank
record for an eligible seed under a positive budget, and none otherwise —
each record having status code, content type, title and text all absent, and
emits no link edges; nothing is ever enqueued from a failed fetch. -/
theorem c8_transport_failure (env : Env) (cfg : Config)
    (hf : ∀ u, env.fetch u = none) (hnf : noFail env) :
    (∃ n r, crawlFuel env cfg n (initState cfg) = some r) ∧
    (∀ (n : Nat) (stf : CrawlState) (e : Option StorageError),
      crawlFuel env cfg n (initState cfg) = some (stf, e) →
      e = none ∧
      stf.pages = stf.visited.map blankRecord ∧
      stf.links = [] ∧
      stf.visited = (if 0 < cfg.maxPages ∧
          allowed_url cfg (defrag cfg.base) = true
        then [defrag cfg.base] else []) ∧
      (stf.queue = [] ∨ stf.queue = [cfg.base])) := by
  constructor
  · exact c9_crawl_terminates env cfg (initState cfg)
  · intro n stf e hcf
    have he : e = none := (crawlFuel_noFail env cfg hnf n _ stf e hcf).1
    rcases crawlFuel_allFail env cfg hf hnf n _ stf e hcf with
      ⟨newly, h1, h2, h3, h4⟩
    have hqd : stf.queue = [] ∨ stf.queue = [cfg.base] := by
      rcases h4 with ⟨s, hs⟩
      rcases s with _ | ⟨a, s⟩
      · right
        simpa [initState] using hs
      · left
        have : s ++ stf.queue = [] := by
          have := congrArg List.tail hs
          simpa [initState] using this
        exact (List.append_eq_nil.mp this).2
    refine ⟨he, ?_, by simpa [initState] using h3, ?_, hqd⟩
    · rw [h1, h2]
      simp [initState]
    · by_cases hmp : 0 < cfg.maxPages
      · by_cases hall : allowed_url cfg (defrag cfg.base) = true
        · cases n with
          | zero => simp [crawlFuel] at hcf
          | succ m =>
            have hiter : crawlIter env cfg cfg.base [] (initState cfg) =
                (CrawlState.mk [] [defrag cfg.base] [defrag cfg.base]
                  [defrag cfg.base] [blankRecord (defrag cfg.base)] [],
                 none) := by
              simp [crawlIter, initState, hall, processPage,
                hf (defrag cfg.base), (hnf (defrag cfg.base)).1]
            have hq0 : (initState cfg).queue = [cfg.base] := rfl
            have hg : (initState cfg).visited.length < cfg.maxPages := by
              simpa [initState] using hmp
            simp only [crawlFuel, hq0, hg, if_true, hiter] at hcf
            have := crawlFuel_nil_queue env cfg m _ stf e rfl hcf
            rw [this.1]
            simp [hmp, hall]
        · cases n with
          | zero => simp [crawlFuel] at hcf
          | succ m =>
            have hall' : allowed_url cfg (defrag cfg.base) = false := by
              simpa using hall
            have hiter : crawlIter env cfg cfg.base [] (initState cfg) =
                (CrawlState.mk [] [] [defrag cfg.base] [] [] [], none) := by
              simp [crawlIter, initState, hall']
            have hq0 : (initState cfg).queue = [cfg.base] := rfl
            have hg : (initState cfg).visited.length < cfg.maxPages := by
              simpa [initState] using hmp
            simp only [crawlFuel, hq0, hg, if_true, hiter] at hcf
            have := crawlFuel_nil_queue env cfg m _ stf e rfl hcf
            rw [this.1]
            simp [hall']
      · have := crawlFuel_budget_stop env cfg n _ stf e
          (by simp [initState]; omega) hcf
        rw [this.1]
        simp [initState, hmp]

/-- Witness for C8 on a concrete run. -/
theorem c8_transport_failure_witness :
    (none : Option StorageError) = none ∧
    stNoFetch.pages = stNoFetch.visited.map blankRecord ∧
    stNoFetch.links = [] ∧
    stNoFetch.visited = (if 0 < cfgEx.maxPages ∧
        allowed_url cfgEx (defrag cfgEx.base) = true
      then [defrag cfgEx.base] else []) ∧
    (stNoFetch.queue = [] ∨ stNoFetch.queue = [cfgEx.base]) :=
  (c8_transport_failure envNoFetch cfgEx (fun _ => rfl)
    (fun _ => ⟨rfl, rfl⟩)).2 2 stNoFetch none (by decide)

end Scraper

